import Mathlib

/-!
Verification development for the trading core of the `remoterl` repository.

The Lean definitions below are a shallow embedding of the Python sources
`src/trading/local_account.py` and `src/trading/trading_market.py`.
Per-lane NumPy arrays of the local account are modelled as functions
`ℕ → ℚ` / `ℕ → ℤ` (lane index → value); elementwise NumPy operations
become pointwise function definitions, and fancy-index assignment
(`arr[target] = v`) becomes a pointwise `if j ∈ targets` update.
Machine floats are modelled by exact rationals; Python dictionaries by
association lists (`List (String × _)`) with first-match lookup.
-/

namespace RemoteRL

/-! ## LocalAccount (src/trading/local_account.py)

State arrays of `LocalAccount.__init__` (lines 33-43): each field maps a
lane index to its value.  `num_envs` is kept in the configuration record
together with the sampling ranges. -/

structure AccountConfig where
  numEnvs : ℕ
  stocksLo : ℤ
  stocksHi : ℤ
  budgetLo : ℚ
  budgetHi : ℚ
  stepLo : ℤ
  stepHi : ℤ

structure AccountState where
  cash : ℕ → ℚ
  posQty : ℕ → ℤ
  avgEntry : ℕ → ℚ
  prevNav : ℕ → ℚ
  maxSteps : ℕ → ℤ
  unrealized : ℕ → ℚ
  exposure : ℕ → ℚ
  assetNav : ℕ → ℚ

/-- `LocalAccount.__init__`: all arrays are zeros except `cash`, which is
sampled uniformly in the budget range (the sample is a parameter here),
and `prev_nav`/`asset_nav`, which are set to the sampled cash. -/
def initAccount (cash0 : ℕ → ℚ) : AccountState where
  cash := cash0
  posQty := fun _ => 0
  avgEntry := fun _ => 0
  prevNav := cash0
  maxSteps := fun _ => 0
  unrealized := fun _ => 0
  exposure := fun _ => 0
  assetNav := cash0

/-- `LocalAccount.apply_actions` (lines 80-140).  Returns the updated
state and the reward array `nav - prev_nav`.  The masks `buy`/`sell`,
the weighted-average update of `avg_entry_price` on buys, the zeroing of
`avg_entry_price` when the new quantity is zero, and the derived-state
recomputation follow the source statement by statement. -/
def applyActions (s : AccountState) (actions : ℕ → ℤ) (prices : ℕ → ℚ) :
    AccountState × (ℕ → ℚ) :=
  let buy : ℕ → Bool := fun i => actions i == 1
  let sell : ℕ → Bool := fun i => actions i == 2 && decide (1 ≤ s.posQty i)
  let oldQty : ℕ → ℤ := s.posQty
  let newQty : ℕ → ℤ := fun i =>
    oldQty i + (if buy i then 1 else 0) - (if sell i then 1 else 0)
  let cash1 : ℕ → ℚ := fun i =>
    s.cash i - prices i * (if buy i then 1 else 0) + prices i * (if sell i then 1 else 0)
  let avg1 : ℕ → ℚ := fun i =>
    if buy i then (s.avgEntry i * (oldQty i : ℚ) + prices i) / ((oldQty i : ℚ) + 1)
    else s.avgEntry i
  let avg2 : ℕ → ℚ := fun i => if newQty i = 0 then 0 else avg1 i
  let expo : ℕ → ℚ := fun i => (newQty i : ℚ) * prices i
  let unrl : ℕ → ℚ := fun i => (prices i - avg2 i) * (newQty i : ℚ)
  let nav : ℕ → ℚ := fun i => cash1 i + expo i
  let reward : ℕ → ℚ := fun i => nav i - s.prevNav i
  ({ cash := cash1, posQty := newQty, avgEntry := avg2, prevNav := nav,
     maxSteps := s.maxSteps, unrealized := unrl, exposure := expo, assetNav := nav },
   reward)

/-- `LocalAccount.reset_account` (lines 143-179) restricted to the eight
per-lane state arrays.  `targets` is the resolved `target` index array
(`arange(num_envs)` when `indices is None`); the freshly drawn
`max_steps`, `cash` and `position_qty` samples are parameters.  The
returned symbol draw does not touch lane state and is omitted. -/
def resetAccount (s : AccountState) (targets : List ℕ)
    (newSteps : ℕ → ℤ) (newCash : ℕ → ℚ) (newQty : ℕ → ℤ) : AccountState where
  cash := fun j => if j ∈ targets then newCash j else s.cash j
  posQty := fun j => if j ∈ targets then newQty j else s.posQty j
  avgEntry := fun j => if j ∈ targets then 0 else s.avgEntry j
  prevNav := fun j => if j ∈ targets then newCash j else s.prevNav j
  maxSteps := fun j => if j ∈ targets then newSteps j else s.maxSteps j
  unrealized := fun j => if j ∈ targets then 0 else s.unrealized j
  exposure := fun j => if j ∈ targets then 0 else s.exposure j
  assetNav := fun j => if j ∈ targets then newCash j else s.assetNav j

/-- `LocalAccount.update_account` (lines 182-202).  `rows` pairs each
target lane index with the close price of the aligned market-feature
row; sequential NumPy fancy-index assignments become left-to-right
folds of pointwise updates (last write wins on duplicate indices).
`asset_nav` and `prev_nav` read the already-updated arrays, as in the
source statement order. -/
def updateAccount (s : AccountState) (rows : List (ℕ × ℚ)) : AccountState :=
  let expo := rows.foldl (fun f r => Function.update f r.1 ((s.posQty r.1 : ℚ) * r.2)) s.exposure
  let unrl := rows.foldl
    (fun f r => Function.update f r.1 ((r.2 - s.avgEntry r.1) * (s.posQty r.1 : ℚ)))
    s.unrealized
  let nav := rows.foldl (fun f r => Function.update f r.1 (s.cash r.1 + expo r.1)) s.assetNav
  let prev := rows.foldl (fun f r => Function.update f r.1 (nav r.1)) s.prevNav
  { s with exposure := expo, unrealized := unrl, assetNav := nav, prevNav := prev }

/-- Order-result dictionary as produced by `TradingMarket.submit_orders`
and consumed by `step_account`; missing dictionary keys are `none`
(`Bool`-valued `skipped` defaults to false, matching a missing key being
falsy). -/
structure OrderResult where
  order_id : Option String := none
  symbol : String := ""
  status : Option String := none
  filled_avg_price : Option ℚ := none
  action : Option ℤ := none
  skipped : Bool := false
  reason : Option String := none
  error : Option String := none
deriving DecidableEq, Repr

/-- `o.get("filled_avg_price", 0.0)` of `LocalAccount.step_account`. -/
def resultPrice (o : OrderResult) : ℚ := o.filled_avg_price.getD 0

/-- `o.get("action", 0)` of `LocalAccount.step_account`. -/
def resultAction (o : OrderResult) : ℤ := o.action.getD 0

/-- Price array extracted from the order results (line 224-227). -/
def pricesOf (ors : List OrderResult) : ℕ → ℚ :=
  fun i => ((ors.get? i).map resultPrice).getD 0

/-- Action array extracted from the order results (line 230-233). -/
def actionsOf (ors : List OrderResult) : ℕ → ℤ :=
  fun i => ((ors.get? i).map resultAction).getD 0

structure StepOut where
  state : AccountState
  reward : ℕ → ℚ
  truncated : ℕ → Bool
  terminated : ℕ → Bool

/-- `LocalAccount.step_account` (lines 206-242).  The source computes
`truncated = np.full(num_envs, step_count >= max_steps, dtype=bool)`:
`step_count >= max_steps` is already a boolean array of shape
`(num_envs,)`, and `np.full` broadcasts an array fill value elementwise
into the target shape, so lane `i` receives `step_count >= max_steps[i]`.
`terminated` compares the cash array after `apply_actions` ran. -/
def stepAccount (s : AccountState) (ors : List OrderResult) (stepCount : ℤ) : StepOut :=
  let ar := applyActions s (actionsOf ors) (pricesOf ors)
  { state := ar.1
    reward := ar.2
    truncated := fun i => decide (stepCount ≥ s.maxSteps i)
    terminated := fun i => decide (ar.1.cash i ≤ 0) }

/-! ### Reachable states of a `LocalAccount`

Construction followed by any sequence of `apply_actions`,
`reset_account` (full or partial), `update_account` and `step_account`
calls.  Random draws appear as universally quantified parameters bounded
by the configured ranges (`rng.uniform(lo, hi)` and
`rng.integers(lo, hi+1)` both stay inside `[lo, hi]`; `__init__` clamps
the upper budget bound to `max lo hi`). -/

inductive Reachable (cfg : AccountConfig) : AccountState → Prop
  | init (cash0 : ℕ → ℚ)
      (hc : ∀ i, i < cfg.numEnvs →
        cfg.budgetLo ≤ cash0 i ∧ cash0 i ≤ max cfg.budgetLo cfg.budgetHi) :
      Reachable cfg (initAccount cash0)
  | applyStep (s : AccountState) (hs : Reachable cfg s)
      (actions : ℕ → ℤ) (prices : ℕ → ℚ) :
      Reachable cfg (applyActions s actions prices).1
  | resetStep (s : AccountState) (hs : Reachable cfg s) (targets : List ℕ)
      (newSteps : ℕ → ℤ) (newCash : ℕ → ℚ) (newQty : ℕ → ℤ)
      (hsteps : ∀ j ∈ targets, cfg.stepLo ≤ newSteps j ∧ newSteps j ≤ cfg.stepHi)
      (hcash : ∀ j ∈ targets, cfg.budgetLo ≤ newCash j ∧ newCash j ≤ cfg.budgetHi)
      (hqty : ∀ j ∈ targets, cfg.stocksLo ≤ newQty j ∧ newQty j ≤ cfg.stocksHi) :
      Reachable cfg (resetAccount s targets newSteps newCash newQty)
  | updateStep (s : AccountState) (hs : Reachable cfg s) (rows : List (ℕ × ℚ)) :
      Reachable cfg (updateAccount s rows)
  | stepStep (s : AccountState) (hs : Reachable cfg s)
      (ors : List OrderResult) (stepCount : ℤ) :
      Reachable cfg (stepAccount s ors stepCount).state

/-- Sequence of uninterrupted `apply_actions` calls: the final state and
the per-lane sum of the rewards returned along the way. -/
def applySeq : AccountState → List ((ℕ → ℤ) × (ℕ → ℚ)) → AccountState × (ℕ → ℚ)
  | s, [] => (s, fun _ => 0)
  | s, ap :: rest =>
    let r := applyActions s ap.1 ap.2
    let t := applySeq r.1 rest
    (t.1, fun i => r.2 i + t.2 i)

lemma applyActions_prevNav_eq_assetNav (s : AccountState) (a : ℕ → ℤ) (p : ℕ → ℚ) (i : ℕ) :
    ((applyActions s a p).1).prevNav i = ((applyActions s a p).1).assetNav i := rfl

lemma applyActions_reward_eq (s : AccountState) (a : ℕ → ℤ) (p : ℕ → ℚ) (i : ℕ) :
    (applyActions s a p).2 i = ((applyActions s a p).1).assetNav i - s.prevNav i := rfl

/-! ### Claim theorems on LocalAccount -/

/-- C1: after `LocalAccount.step_account(order_results, step_count)`,
lane `i` is truncated exactly when `step_count ≥ max_steps[i]` (per-lane
`max_steps`, via NumPy array-fill broadcasting), and terminated exactly
when `cash[i] ≤ 0` measured after the fills were applied by
`apply_actions`. -/
theorem stepAccount_flags_per_lane (s : AccountState) (ors : List OrderResult)
    (stepCount : ℤ) (i : ℕ) :
    ((stepAccount s ors stepCount).truncated i = true ↔ stepCount ≥ s.maxSteps i) ∧
    ((stepAccount s ors stepCount).terminated i = true ↔
      ((applyActions s (actionsOf ors) (pricesOf ors)).1).cash i ≤ 0) := by
  constructor <;> simp [stepAccount]

/-- C5: over exact rational arithmetic, the per-lane sum of rewards of an
uninterrupted sequence of `apply_actions` calls telescopes to the final
`asset_nav` minus the initial `asset_nav`, for any starting state whose
`prev_nav` agrees with `asset_nav` on that lane (which holds after
construction, `reset_account`, `update_account`, and `apply_actions`). -/
theorem applySeq_reward_telescopes (l : List ((ℕ → ℤ) × (ℕ → ℚ))) (s : AccountState)
    (i : ℕ) (h : s.prevNav i = s.assetNav i) :
    (applySeq s l).2 i = ((applySeq s l).1).assetNav i - s.assetNav i := by
  induction l generalizing s with
  | nil => simp [applySeq]
  | cons ap rest ih =>
    have hr := ih (applyActions s ap.1 ap.2).1 (applyActions_prevNav_eq_assetNav s ap.1 ap.2 i)
    simp only [applySeq]
    rw [hr, applyActions_reward_eq s ap.1 ap.2 i, h]
    ring

/-- Witness configuration with the default constructor ranges of
`LocalAccount.__init__`. -/
def cfg1 : AccountConfig where
  numEnvs := 1
  stocksLo := 0
  stocksHi := 100
  budgetLo := 100
  budgetHi := 10000
  stepLo := 1000
  stepHi := 10000

theorem applySeq_reward_telescopes_witness :
    (initAccount (fun _ => 1000)).prevNav 0 = (initAccount (fun _ => 1000)).assetNav 0 ∧
    (applySeq (initAccount (fun _ => 1000)) [(fun _ => 1, fun _ => 10)]).2 0 =
      ((applySeq (initAccount (fun _ => 1000)) [(fun _ => 1, fun _ => 10)]).1).assetNav 0 -
        (initAccount (fun _ => 1000)).assetNav 0 :=
  ⟨rfl, applySeq_reward_telescopes [(fun _ => 1, fun _ => 10)] (initAccount (fun _ => 1000)) 0 rfl⟩

/-- C6: `reset_account` with an explicit index subset leaves every one of
the eight per-lane fields of every lane outside the subset unchanged. -/
theorem resetAccount_frame (s : AccountState) (targets : List ℕ)
    (newSteps : ℕ → ℤ) (newCash : ℕ → ℚ) (newQty : ℕ → ℤ) (j : ℕ) (hj : j ∉ targets) :
    (resetAccount s targets newSteps newCash newQty).cash j = s.cash j ∧
    (resetAccount s targets newSteps newCash newQty).posQty j = s.posQty j ∧
    (resetAccount s targets newSteps newCash newQty).avgEntry j = s.avgEntry j ∧
    (resetAccount s targets newSteps newCash newQty).prevNav j = s.prevNav j ∧
    (resetAccount s targets newSteps newCash newQty).maxSteps j = s.maxSteps j ∧
    (resetAccount s targets newSteps newCash newQty).unrealized j = s.unrealized j ∧
    (resetAccount s targets newSteps newCash newQty).exposure j = s.exposure j ∧
    (resetAccount s targets newSteps newCash newQty).assetNav j = s.assetNav j := by
  simp [resetAccount, hj]

/-- Concrete lane state used by witnesses. -/
def laneState : AccountState where
  cash := fun _ => 1000
  posQty := fun _ => 2
  avgEntry := fun _ => 7
  prevNav := fun _ => 1014
  maxSteps := fun _ => 5
  unrealized := fun _ => 3
  exposure := fun _ => 14
  assetNav := fun _ => 1014

theorem resetAccount_frame_witness :
    (1 : ℕ) ∉ ([0] : List ℕ) ∧
    ((resetAccount laneState [0] (fun _ => 9) (fun _ => 500) (fun _ => 1)).cash 1 = laneState.cash 1 ∧
     (resetAccount laneState [0] (fun _ => 9) (fun _ => 500) (fun _ => 1)).posQty 1 = laneState.posQty 1 ∧
     (resetAccount laneState [0] (fun _ => 9) (fun _ => 500) (fun _ => 1)).avgEntry 1 = laneState.avgEntry 1 ∧
     (resetAccount laneState [0] (fun _ => 9) (fun _ => 500) (fun _ => 1)).prevNav 1 = laneState.prevNav 1 ∧
     (resetAccount laneState [0] (fun _ => 9) (fun _ => 500) (fun _ => 1)).maxSteps 1 = laneState.maxSteps 1 ∧
     (resetAccount laneState [0] (fun _ => 9) (fun _ => 500) (fun _ => 1)).unrealized 1 = laneState.unrealized 1 ∧
     (resetAccount laneState [0] (fun _ => 9) (fun _ => 500) (fun _ => 1)).exposure 1 = laneState.exposure 1 ∧
     (resetAccount laneState [0] (fun _ => 9) (fun _ => 500) (fun _ => 1)).assetNav 1 = laneState.assetNav 1) :=
  ⟨by decide, resetAccount_frame laneState [0] (fun _ => 9) (fun _ => 500) (fun _ => 1) 1 (by decide)⟩

/-- C2 (amended): on every reachable state of `LocalAccount`, a lane with
`position_qty = 0` has `avg_entry_price = 0`.  The converse direction of
the claimed equivalence is refuted by `reachable_iff_counterexample`. -/
theorem reachable_posQty_zero_imp_avgEntry_zero (cfg : AccountConfig) (s : AccountState)
    (hs : Reachable cfg s) : ∀ i, s.posQty i = 0 → s.avgEntry i = 0 := by
  induction hs with
  | init cash0 hc => intro i _; rfl
  | applyStep s hs actions prices ih =>
    intro i h0
    simp only [applyActions] at h0 ⊢
    rw [if_pos h0]
  | resetStep s hs targets nS nC nQ hsteps hcash hqty ih =>
    intro j h0
    by_cases hj : j ∈ targets
    · simp [resetAccount, hj]
    · simp only [resetAccount] at h0 ⊢
      rw [if_neg hj] at h0 ⊢
      exact ih j h0
  | updateStep s hs rows ih => intro i h0; exact ih i h0
  | stepStep s hs ors stepCount ih =>
    intro i h0
    simp only [stepAccount, applyActions] at h0 ⊢
    rw [if_pos h0]

theorem reachable_posQty_zero_imp_avgEntry_zero_witness :
    Reachable cfg1 (initAccount (fun _ => 1000)) ∧
    (initAccount (fun _ => 1000)).posQty 0 = 0 ∧
    (initAccount (fun _ => 1000)).avgEntry 0 = 0 :=
  ⟨Reachable.init _ (fun _ _ => ⟨by norm_num [cfg1], by norm_num [cfg1]⟩), rfl,
   reachable_posQty_zero_imp_avgEntry_zero cfg1 _
     (Reachable.init _ (fun _ _ => ⟨by norm_num [cfg1], by norm_num [cfg1]⟩)) 0 rfl⟩

/-- Reachable state obtained by a full `reset_account` that draws
`position_qty = 5` (inside the default `num_stocks_range = (0, 100)`)
while zeroing `avg_entry_price`. -/
def badState : AccountState :=
  resetAccount (initAccount (fun _ => 1000)) [0] (fun _ => 1000) (fun _ => 1000) (fun _ => 5)

/-- C2 counterexample: the claimed equivalence
`position_qty == 0 ⇔ avg_entry_price == 0` fails on a reachable state:
after `reset_account` draws a nonzero initial position, the lane has
`position_qty = 5` but `avg_entry_price = 0`. -/
theorem reachable_iff_counterexample :
    Reachable cfg1 badState ∧ 0 < cfg1.numEnvs ∧
      ¬ (badState.posQty 0 = 0 ↔ badState.avgEntry 0 = 0) := by
  refine ⟨?_, by decide, ?_⟩
  · exact Reachable.resetStep _
      (Reachable.init _ (fun _ _ => ⟨by norm_num [cfg1], by norm_num [cfg1]⟩)) [0] _ _ _
      (fun j _ => ⟨by norm_num [cfg1], by norm_num [cfg1]⟩)
      (fun j _ => ⟨by norm_num [cfg1], by norm_num [cfg1]⟩)
      (fun j _ => ⟨by norm_num [cfg1], by norm_num [cfg1]⟩)
  · intro h
    have h5 : badState.posQty 0 = 5 := by decide
    have h0 : badState.avgEntry 0 = 0 := by decide
    have := h.mpr h0
    rw [h5] at this
    exact absurd this (by norm_num)

/-! ## TradingMarket (src/trading/trading_market.py) -/

/-- Normalized cached bar `{o,h,l,c,v,t}`. -/
structure Bar where
  o : ℚ
  h : ℚ
  l : ℚ
  c : ℚ
  v : ℚ
  t : ℚ
deriving DecidableEq, Repr

/-- Read `bar.get("c") or bar.get("price") or 0.0` from the market
cache: normalized cache entries always carry key `c` and never `price`,
so the fallback chain yields `c` on a hit and `0` on a miss (and `0`
again when `c` itself is `0`). -/
def lastClose (cache : List (String × Bar)) (sym : String) : ℚ :=
  match cache.lookup sym with
  | some b => b.c
  | none => 0

/-- One frame sent on the market WebSocket by
`_subscribe_async`/`_unsubscribe_async`. -/
structure WsFrame where
  action : String
  bars : List String
deriving DecidableEq, Repr

/-- The `SubscriptionSet` (`TradingMarket._subscribed`, as a membership
list) together with the frames sent so far on the market WebSocket. -/
structure SubscriptionState where
  subscribed : List String
  sent : List WsFrame
deriving DecidableEq, Repr

/-- `TradingMarket.__init__`: `freeze_subscriptions = (trade_mode != "local")`. -/
def freezeSubscriptions (tradeMode : String) : Bool := tradeMode != "local"

/-- `TradingMarket._subscribe_async` (lines 352-358); `marketWs` is the
truthiness of `self._market_ws`. -/
def subscribeAsync (marketWs : Bool) (st : SubscriptionState) (symbols : List String) :
    SubscriptionState :=
  let add := symbols.filter (fun s => s ∉ st.subscribed)
  if add = [] then st
  else { subscribed := st.subscribed ++ add,
         sent := if marketWs then st.sent ++ [{ action := "subscribe", bars := add }]
                 else st.sent }

/-- `TradingMarket._unsubscribe_async` (lines 360-367). -/
def unsubscribeAsync (marketWs : Bool) (st : SubscriptionState) (symbols : List String) :
    SubscriptionState :=
  let rm := symbols.filter (fun s => s ∈ st.subscribed)
  if rm = [] then st
  else { subscribed := st.subscribed.filter (fun s => s ∉ rm),
         sent := if marketWs then st.sent ++ [{ action := "unsubscribe", bars := rm }]
                 else st.sent }

/-- `TradingMarket.subscribe` (lines 332-340): when frozen, only a log
line is emitted and the state is untouched. -/
def subscribeSync (frozen marketWs : Bool) (st : SubscriptionState)
    (symbols : List String) : SubscriptionState :=
  if frozen then st else subscribeAsync marketWs st symbols

/-- `TradingMarket.unsubscribe` (lines 342-350). -/
def unsubscribeSync (frozen marketWs : Bool) (st : SubscriptionState)
    (symbols : List String) : SubscriptionState :=
  if frozen then st else unsubscribeAsync marketWs st symbols

/-- C7: with `trade_mode` paper or real, `subscribe` and `unsubscribe`
leave the `SubscriptionSet` unchanged and send no frame on the market
WebSocket. -/
theorem subscribe_frozen_noop (tradeMode : String)
    (h : tradeMode = "paper" ∨ tradeMode = "real") (marketWs : Bool)
    (st : SubscriptionState) (symbols : List String) :
    subscribeSync (freezeSubscriptions tradeMode) marketWs st symbols = st ∧
    unsubscribeSync (freezeSubscriptions tradeMode) marketWs st symbols = st := by
  have hf : freezeSubscriptions tradeMode = true := by
    rcases h with h | h <;> subst h <;> decide
  constructor <;> simp [subscribeSync, unsubscribeSync, hf]

theorem subscribe_frozen_noop_witness :
    (("paper" : String) = "paper" ∨ ("paper" : String) = "real") ∧
    subscribeSync (freezeSubscriptions "paper") true ⟨["A"], []⟩ ["B"] = ⟨["A"], []⟩ ∧
    unsubscribeSync (freezeSubscriptions "paper") true ⟨["A"], []⟩ ["B"] = ⟨["A"], []⟩ :=
  ⟨Or.inl rfl, subscribe_frozen_noop "paper" (Or.inl rfl) true ⟨["A"], []⟩ ["B"]⟩

/-- One row of `get_account_features` for a lane holding symbol `sym`:
`[position_qty, cash_share, avg_entry_price, unrealized_pnl, exposure,
asset_nav]`; `posBySym` maps a symbol to its `(qty, avg)` pair. -/
def accountRow (cashShare : ℚ) (posBySym : List (String × ℚ × ℚ))
    (cache : List (String × Bar)) (sym : String) : List ℚ :=
  let qty := ((posBySym.lookup sym).map Prod.fst).getD 0
  let avg := ((posBySym.lookup sym).map (fun p => p.2)).getD 0
  let px := lastClose cache sym
  [qty, cashShare, avg, (px - avg) * qty, qty * px, cashShare + qty * px]

/-- `TradingMarket.get_account_features` (lines 700-748): `n = max(1, N)`
zero rows are allocated, `cash_share = cash / n`, and row `i` is filled
only when `i` indexes into `symbols`. -/
def getAccountFeatures (accountCash : ℚ) (posBySym : List (String × ℚ × ℚ))
    (cache : List (String × Bar)) (syms : List String) : List (List ℚ) :=
  let n := max 1 syms.length
  let cashShare := accountCash / (n : ℚ)
  (List.range n).map (fun i =>
    match syms.get? i with
    | some s => accountRow cashShare posBySym cache s
    | none => [0, 0, 0, 0, 0, 0])

/-- C10: `get_account_features(symbols)` returns `max(1, N)` rows, the
cash column of every populated row is `cash / max(1, N)`, and an empty
symbol list yields the single zero row. -/
theorem getAccountFeatures_shape (accountCash : ℚ) (posBySym : List (String × ℚ × ℚ))
    (cache : List (String × Bar)) (syms : List String) :
    (getAccountFeatures accountCash posBySym cache syms).length = max 1 syms.length ∧
    (∀ i, i < syms.length →
      ((getAccountFeatures accountCash posBySym cache syms).getD i []).get? 1 =
        some (accountCash / (max 1 syms.length : ℚ))) ∧
    (syms = [] →
      getAccountFeatures accountCash posBySym cache syms = [[0, 0, 0, 0, 0, 0]]) := by
  refine ⟨by simp [getAccountFeatures], ?_, ?_⟩
  · intro i hi
    have hin : i < max 1 syms.length := lt_of_lt_of_le hi (le_max_right _ _)
    have hs : syms[i]? = some (syms.get ⟨i, hi⟩) := by
      rw [List.getElem?_eq_getElem hi]; rfl
    simp [getAccountFeatures, List.getD_eq_getElem?_getD, List.getElem?_range hin, hs,
      accountRow]
  · intro h; subst h; rfl

theorem getAccountFeatures_shape_witness :
    0 < (["A"] : List String).length ∧
    ((getAccountFeatures 100 [] [] ["A"]).getD 0 []).get? 1 =
      some (100 / (max 1 (["A"] : List String).length : ℚ)) :=
  ⟨by decide, (getAccountFeatures_shape 100 [] [] ["A"]).2.1 0 (by decide)⟩

/-! ### Order submission (`TradingMarket.submit_orders`, lines 761-828) -/

/-- Result dict `{"symbol": s, "skipped": True, "reason": r}`. -/
def skipResult (sym reasonStr : String) : OrderResult :=
  { symbol := sym, skipped := true, reason := some reasonStr }

/-- `side_to_action.get(side, 0)` with `{"hold": 0, "buy": 1, "sell": 2}`
(line 795; unknown sides default to 0, as does `"hold"`). -/
def sideToAction (side : String) : ℤ :=
  if side = "buy" then 1 else if side = "sell" then 2 else 0

/-- `{"symbol": symbols[i], "skipped": True, "reason": "no_order"}` (line 826). -/
def noOrderResult (sym : String) : OrderResult :=
  { symbol := sym, skipped := true, reason := some "no_order" }

/-- Local fill dict for the `j`-th unique symbol (lines 799-806); `now`
is the microsecond timestamp captured once per call. -/
def localOrder (cache : List (String × Bar)) (now j : ℕ) (sym side : String) : OrderResult :=
  { order_id := some ("local-" ++ sym ++ "-" ++ toString (now + j)),
    symbol := sym,
    status := some "filled",
    filled_avg_price := some (lastClose cache sym),
    action := some (sideToAction side) }

/-- Paper/real placement of one broker response (lines 814-822): a truthy
`error` field yields a skipped lane carrying the error, else the response
is placed with its `symbol` field set. -/
def paperPlaced (sym : String) (res : OrderResult) : OrderResult :=
  if res.error.getD "" ≠ "" then
    { symbol := sym, skipped := true, reason := some "error", error := res.error }
  else { res with symbol := sym }

/-- Output of the preprocessing loop: the result skeleton (`None` where a
lane still awaits an order), `uniq_syms`/`uniq_sides` zipped, and the
`first_idx` map in lane order. -/
structure FirstPassOut where
  skeleton : List (Option OrderResult)
  uniq : List (String × String)
  firstIdx : List (String × ℕ)
deriving Repr

/-- Preprocessing loop of `submit_orders` (lines 779-789): lane `i` with
symbol `s` is skipped as `not_subscribed` or `duplicate_lane`, otherwise
recorded in `first_idx` and the unique lists; `seen` carries the keys of
`first_idx` so far and `i` the running lane index. -/
def firstPass (subscribed : List String) :
    List (String × String) → ℕ → List String → FirstPassOut
  | [], _, _ => ⟨[], [], []⟩
  | (sym, side) :: rest, i, seen =>
    if sym ∉ subscribed then
      let r := firstPass subscribed rest (i + 1) seen
      ⟨some (skipResult sym "not_subscribed") :: r.skeleton, r.uniq, r.firstIdx⟩
    else if sym ∈ seen then
      let r := firstPass subscribed rest (i + 1) seen
      ⟨some (skipResult sym "duplicate_lane") :: r.skeleton, r.uniq, r.firstIdx⟩
    else
      let r := firstPass subscribed rest (i + 1) (sym :: seen)
      ⟨none :: r.skeleton, (sym, side) :: r.uniq, (sym, i) :: r.firstIdx⟩

/-- A loop of `results[index] = value` writes, applied left to right. -/
def setMany {α : Type} : List (ℕ × α) → List α → List α
  | [], l => l
  | w :: ws, l => setMany ws (l.set w.1 w.2)

/-- Writes performed by the local-mode fill loop (lines 797-806):
the `j`-th unique symbol's dict goes to lane `first_idx[sym]`. -/
def localWrites (cache : List (String × Bar)) (now : ℕ) (firstIdx : List (String × ℕ))
    (uniq : List (String × String)) : List (ℕ × Option OrderResult) :=
  uniq.enum.map (fun p =>
    ((firstIdx.lookup p.2.1).getD 0, some (localOrder cache now p.1 p.2.1 p.2.2)))

/-- Writes performed by the paper/real fill loop (lines 808-822); `outs`
is the list returned by `_submit_orders_async`, treated as an oracle
(`outs[j]` when in range, else the empty dict). -/
def paperWrites (outs : List OrderResult) (firstIdx : List (String × ℕ))
    (uniqSyms : List String) : List (ℕ × Option OrderResult) :=
  uniqSyms.enum.map (fun p =>
    ((firstIdx.lookup p.2).getD 0, some (paperPlaced p.2 ((outs.get? p.1).getD {}))))

/-- Local-mode auto-subscribe of missing symbols (lines 767-773): the
subscription set after `self.subscribe(miss)`, which mutates only when
the mode is local and subscriptions are not frozen. -/
def autoSubscribed (mode : String) (frozen : Bool) (subscribed : List String)
    (symbols : List String) : List String :=
  let miss := symbols.filter (fun s => s ∉ subscribed)
  if miss ≠ [] ∧ mode = "local" ∧ frozen = false then subscribed ++ miss else subscribed

/-- Preprocessing result of `submit_orders` over the post-auto-subscribe
subscription set. -/
def submitPrep (mode : String) (frozen : Bool) (subscribed : List String)
    (symbols sides : List String) : FirstPassOut :=
  firstPass (autoSubscribed mode frozen subscribed symbols) (symbols.zip sides) 0 []

/-- Result skeleton after the mode-specific fill loop ran. -/
def submitPlaced (mode : String) (frozen : Bool) (subscribed : List String)
    (cache : List (String × Bar)) (outs : List OrderResult)
    (symbols sides : List String) (now : ℕ) : List (Option OrderResult) :=
  let fp := submitPrep mode frozen subscribed symbols sides
  if mode = "local" then setMany (localWrites cache now fp.firstIdx fp.uniq) fp.skeleton
  else setMany (paperWrites outs fp.firstIdx (fp.uniq.map Prod.fst)) fp.skeleton

/-- Final `None` replacement (lines 824-826). -/
def fillNoOrder (symbols : List String) (results : List (Option OrderResult)) :
    List OrderResult :=
  List.zipWith (fun sym r => r.getD (noOrderResult sym)) symbols results

/-- `TradingMarket.submit_orders` (lines 761-828): the result array and
the state of `self._orders_cache` after the call — the method reads the
market cache under the lock but never writes the orders cache. -/
def submitOrders (mode : String) (frozen : Bool) (subscribed : List String)
    (cache : List (String × Bar)) (ordersCache : List (String × OrderResult))
    (outs : List OrderResult) (symbols sides : List String) (now : ℕ) :
    List OrderResult × List (String × OrderResult) :=
  (fillNoOrder symbols (submitPlaced mode frozen subscribed cache outs symbols sides now),
   ordersCache)

/-! ### Supporting lemmas for the fill loops -/

lemma setMany_length {α : Type} : ∀ (ws : List (ℕ × α)) (l : List α),
    (setMany ws l).length = l.length
  | [], _ => rfl
  | w :: ws, l => by
    rw [setMany, setMany_length ws (l.set w.1 w.2), List.length_set]

lemma setMany_get?_ne {α : Type} : ∀ (ws : List (ℕ × α)) (l : List α) (t : ℕ),
    (∀ w ∈ ws, w.1 ≠ t) → (setMany ws l).get? t = l.get? t
  | [], _, _, _ => rfl
  | w :: ws, l, t, h => by
    rw [setMany, setMany_get?_ne ws _ t (fun u hu => h u (List.mem_cons_of_mem _ hu))]
    exact List.get?_set_ne _ _ (h w (List.mem_cons_self _ _))

lemma setMany_get? {α : Type} : ∀ (ws : List (ℕ × α)) (l : List α) (k i : ℕ) (v : α),
    (ws.map Prod.fst).Nodup → ws.get? k = some (i, v) → i < l.length →
    (setMany ws l).get? i = some v := by
  intro ws
  induction ws with
  | nil => intro l k i v _ hk _; simp at hk
  | cons w ws ih =>
    intro l k i v hnd hk hi
    rw [List.map_cons, List.nodup_cons] at hnd
    cases k with
    | zero =>
      rw [List.get?_cons_zero, Option.some_inj] at hk
      subst hk
      rw [setMany]
      have hne : ∀ u ∈ ws, u.1 ≠ i := by
        intro u hu he
        refine hnd.1 ?_
        show i ∈ List.map Prod.fst ws
        rw [← he]
        exact List.mem_map_of_mem Prod.fst hu
      rw [setMany_get?_ne ws _ i hne]
      exact List.get?_set_eq_of_lt v hi
    | succ k =>
      rw [List.get?_cons_succ] at hk
      rw [setMany]
      exact ih _ k i v hnd.2 hk (by rw [List.length_set]; exact hi)

lemma lookup_cons_self {β : Type} (k : String) (v : β) (l : List (String × β)) :
    ((k, v) :: l).lookup k = some v := by simp [List.lookup]

lemma lookup_cons_ne {β : Type} (k a : String) (v : β) (l : List (String × β))
    (h : a ≠ k) : ((k, v) :: l).lookup a = l.lookup a := by
  have hb : (a == k) = false := beq_eq_false_iff_ne.mpr h
  simp [List.lookup, hb]

lemma lookup_eq_of_mem {β : Type} : ∀ (l : List (String × β)) (s : String) (b : β),
    (l.map Prod.fst).Nodup → (s, b) ∈ l → l.lookup s = some b := by
  intro l
  induction l with
  | nil => intro s b _ hm; simp at hm
  | cons p l ih =>
    intro s b hnd hm
    rw [List.map_cons, List.nodup_cons] at hnd
    rcases List.mem_cons.mp hm with h | h
    · rw [← h]
      exact lookup_cons_self s b l
    · have hne : s ≠ p.1 := by
        intro he
        refine hnd.1 ?_
        rw [← he]
        exact List.mem_map_of_mem Prod.fst h
      cases p with
      | mk k v =>
        rw [lookup_cons_ne k s v l hne]
        exact ih s b hnd.2 h

lemma lookup_map_getD : ∀ (fi : List (String × ℕ)), (fi.map Prod.fst).Nodup →
    (fi.map Prod.fst).map (fun s => (fi.lookup s).getD 0) = fi.map Prod.snd := by
  intro fi
  induction fi with
  | nil => intro _; rfl
  | cons p fs ih =>
    intro hnd
    rw [List.map_cons, List.nodup_cons] at hnd
    cases p with
    | mk k v =>
      rw [List.map_cons, List.map_cons, List.map_cons, lookup_cons_self]
      refine congrArg₂ _ rfl ?_
      rw [← ih hnd.2]
      refine List.map_congr_left ?_
      intro s hs
      have hne : s ≠ k := by
        intro he
        exact hnd.1 (he ▸ hs)
      rw [lookup_cons_ne k s v fs hne]

lemma firstPass_cons_unsub (subscribed : List String) (sym side : String)
    (rest : List (String × String)) (i0 : ℕ) (seen : List String)
    (h : sym ∉ subscribed) :
    firstPass subscribed ((sym, side) :: rest) i0 seen =
      ⟨some (skipResult sym "not_subscribed")
          :: (firstPass subscribed rest (i0 + 1) seen).skeleton,
        (firstPass subscribed rest (i0 + 1) seen).uniq,
        (firstPass subscribed rest (i0 + 1) seen).firstIdx⟩ := by
  simp [firstPass, h]

lemma firstPass_cons_dup (subscribed : List String) (sym side : String)
    (rest : List (String × String)) (i0 : ℕ) (seen : List String)
    (h1 : sym ∈ subscribed) (h2 : sym ∈ seen) :
    firstPass subscribed ((sym, side) :: rest) i0 seen =
      ⟨some (skipResult sym "duplicate_lane")
          :: (firstPass subscribed rest (i0 + 1) seen).skeleton,
        (firstPass subscribed rest (i0 + 1) seen).uniq,
        (firstPass subscribed rest (i0 + 1) seen).firstIdx⟩ := by
  simp [firstPass, h1, h2]

lemma firstPass_cons_new (subscribed : List String) (sym side : String)
    (rest : List (String × String)) (i0 : ℕ) (seen : List String)
    (h1 : sym ∈ subscribed) (h2 : sym ∉ seen) :
    firstPass subscribed ((sym, side) :: rest) i0 seen =
      ⟨none :: (firstPass subscribed rest (i0 + 1) (sym :: seen)).skeleton,
        (sym, side) :: (firstPass subscribed rest (i0 + 1) (sym :: seen)).uniq,
        (sym, i0) :: (firstPass subscribed rest (i0 + 1) (sym :: seen)).firstIdx⟩ := by
  simp [firstPass, h1, h2]

/-- Structural invariants of the preprocessing loop: the skeleton covers
every lane, `uniq` and `first_idx` list the same symbols in the same
order, recorded indices lie in `[i0, i0 + number of lanes)` and carry
symbols outside `seen`, indices are strictly increasing, and symbols are
pairwise distinct. -/
lemma firstPass_wf (subscribed : List String) :
    ∀ (lanes : List (String × String)) (i0 : ℕ) (seen : List String),
      (firstPass subscribed lanes i0 seen).skeleton.length = lanes.length ∧
      (firstPass subscribed lanes i0 seen).uniq.map Prod.fst
        = (firstPass subscribed lanes i0 seen).firstIdx.map Prod.fst ∧
      (∀ e ∈ (firstPass subscribed lanes i0 seen).firstIdx,
        i0 ≤ e.2 ∧ e.2 < i0 + lanes.length ∧ e.1 ∉ seen) ∧
      List.Pairwise (fun a b => a.2 < b.2) (firstPass subscribed lanes i0 seen).firstIdx ∧
      ((firstPass subscribed lanes i0 seen).firstIdx.map Prod.fst).Nodup := by
  intro lanes
  induction lanes with
  | nil => intro i0 seen; simp [firstPass]
  | cons p rest ih =>
    intro i0 seen
    cases p with
    | mk sym side =>
      by_cases h1 : sym ∈ subscribed
      · by_cases h2 : sym ∈ seen
        · obtain ⟨l1, l2, l3, l4, l5⟩ := ih (i0 + 1) seen
          rw [firstPass_cons_dup subscribed sym side rest i0 seen h1 h2]
          refine ⟨by simpa using l1, l2, ?_, l4, l5⟩
          intro e he
          obtain ⟨b1, b2, b3⟩ := l3 e he
          exact ⟨by omega, by simpa [Nat.add_comm, Nat.add_left_comm] using b2, b3⟩
        · obtain ⟨l1, l2, l3, l4, l5⟩ := ih (i0 + 1) (sym :: seen)
          rw [firstPass_cons_new subscribed sym side rest i0 seen h1 h2]
          refine ⟨by simpa using l1, by simpa using l2, ?_, ?_, ?_⟩
          · intro e he
            rcases List.mem_cons.mp he with he | he
            · rw [he]
              exact ⟨le_refl _, by simp, h2⟩
            · obtain ⟨b1, b2, b3⟩ := l3 e he
              refine ⟨by omega, by simpa [Nat.add_comm, Nat.add_left_comm] using b2, ?_⟩
              intro hs
              exact b3 (List.mem_cons_of_mem _ hs)
          · refine List.pairwise_cons.mpr ⟨?_, l4⟩
            intro e he
            have := (l3 e he).1
            show i0 < e.2
            omega
          · rw [List.map_cons]
            refine List.nodup_cons.mpr ⟨?_, l5⟩
            intro hs
            rcases List.mem_map.mp hs with ⟨e, he, hfe⟩
            exact (l3 e he).2.2 (by rw [hfe]; exact List.mem_cons_self _ _)
      · obtain ⟨l1, l2, l3, l4, l5⟩ := ih (i0 + 1) seen
        rw [firstPass_cons_unsub subscribed sym side rest i0 seen h1]
        refine ⟨by simpa using l1, l2, ?_, l4, l5⟩
        intro e he
        obtain ⟨b1, b2, b3⟩ := l3 e he
        exact ⟨by omega, by simpa [Nat.add_comm, Nat.add_left_comm] using b2, b3⟩

/-- Every symbol recorded in `uniq` passed the subscription check. -/
lemma firstPass_uniq_mem_subscribed (subscribed : List String) :
    ∀ (lanes : List (String × String)) (i0 : ℕ) (seen : List String) (sym : String),
      sym ∈ (firstPass subscribed lanes i0 seen).uniq.map Prod.fst →
      sym ∈ subscribed := by
  intro lanes
  induction lanes with
  | nil => intro i0 seen sym h; simp [firstPass] at h
  | cons p rest ih =>
    intro i0 seen sym h
    cases p with
    | mk s side =>
      by_cases h1 : s ∈ subscribed
      · by_cases h2 : s ∈ seen
        · rw [firstPass_cons_dup subscribed s side rest i0 seen h1 h2] at h
          exact ih (i0 + 1) seen sym h
        · rw [firstPass_cons_new subscribed s side rest i0 seen h1 h2] at h
          rw [List.map_cons] at h
          rcases List.mem_cons.mp h with h | h
          · rw [h]; exact h1
          · exact ih (i0 + 1) (s :: seen) sym h
      · rw [firstPass_cons_unsub subscribed s side rest i0 seen h1] at h
        exact ih (i0 + 1) seen sym h

/-- The recorded `first_idx` of a unique symbol is the index of the
first lane (counting from `i0`) whose symbol matches it. -/
lemma firstPass_lookup (subscribed : List String) :
    ∀ (lanes : List (String × String)) (i0 : ℕ) (seen : List String) (sym : String),
      sym ∉ seen →
      sym ∈ (firstPass subscribed lanes i0 seen).uniq.map Prod.fst →
      (firstPass subscribed lanes i0 seen).firstIdx.lookup sym
        = lanes.findIdx? (fun p => p.1 == sym) i0 := by
  intro lanes
  induction lanes with
  | nil => intro i0 seen sym _ h; simp [firstPass] at h
  | cons p rest ih =>
    intro i0 seen sym hns h
    cases p with
    | mk s side =>
      by_cases h1 : s ∈ subscribed
      · by_cases h2 : s ∈ seen
        · rw [firstPass_cons_dup subscribed s side rest i0 seen h1 h2] at h ⊢
          have hne : s ≠ sym := by
            intro he; exact hns (he ▸ h2)
          rw [List.findIdx?_cons, if_neg (by simpa using hne)]
          exact ih (i0 + 1) seen sym hns h
        · rw [firstPass_cons_new subscribed s side rest i0 seen h1 h2] at h ⊢
          by_cases he : sym = s
          · subst he
            rw [lookup_cons_self, List.findIdx?_cons, if_pos (by simp)]
          · rw [lookup_cons_ne s sym i0 _ he, List.findIdx?_cons,
              if_neg (by simpa using Ne.symm he)]
            rw [List.map_cons] at h
            rcases List.mem_cons.mp h with h | h
            · exact absurd h he
            · refine ih (i0 + 1) (s :: seen) sym ?_ h
              intro hm
              rcases List.mem_cons.mp hm with hm | hm
              · exact he hm
              · exact hns hm
      · rw [firstPass_cons_unsub subscribed s side rest i0 seen h1] at h ⊢
        have hne : s ≠ sym := by
          intro he
          exact h1 (he ▸ firstPass_uniq_mem_subscribed subscribed rest (i0 + 1) seen sym h)
        rw [List.findIdx?_cons, if_neg (by simpa using hne)]
        exact ih (i0 + 1) seen sym hns h

/-- With aligned lengths, searching the zipped lanes by their symbol
component is searching the symbol list. -/
lemma findIdx?_zip_fst (sym : String) :
    ∀ (symbols sides : List String) (i0 : ℕ), sides.length = symbols.length →
      (symbols.zip sides).findIdx? (fun p => p.1 == sym) i0
        = symbols.findIdx? (fun x => x == sym) i0 := by
  intro symbols
  induction symbols with
  | nil => intro sides i0 _; simp
  | cons a symbols ih =>
    intro sides i0 hlen
    cases sides with
    | nil => simp at hlen
    | cons b sides =>
      rw [List.zip_cons_cons, List.findIdx?_cons, List.findIdx?_cons]
      by_cases hp : (a == sym) = true
      · rw [if_pos hp, if_pos hp]
      · rw [if_neg hp, if_neg hp]
        exact ih sides (i0 + 1) (by simpa using hlen)

lemma fillNoOrder_get?_some :
    ∀ (symbols : List String) (results : List (Option OrderResult)) (i : ℕ)
      (r : OrderResult), results.get? i = some (some r) → i < symbols.length →
      (fillNoOrder symbols results).get? i = some r := by
  intro symbols
  induction symbols with
  | nil => intro results i r _ hi; simp at hi
  | cons a symbols ih =>
    intro results i r hr hi
    cases results with
    | nil => simp at hr
    | cons o results =>
      cases i with
      | zero =>
        rw [List.get?_cons_zero, Option.some_inj] at hr
        rw [fillNoOrder, List.zipWith_cons_cons, List.get?_cons_zero, hr]
        rfl
      | succ i =>
        rw [List.get?_cons_succ] at hr
        rw [fillNoOrder, List.zipWith_cons_cons, List.get?_cons_succ]
        exact ih results i r hr (by simpa using hi)

lemma fillNoOrder_get?_none :
    ∀ (symbols : List String) (results : List (Option OrderResult)) (i : ℕ),
      results.get? i = some none → i < symbols.length →
      (fillNoOrder symbols results).get? i = some (noOrderResult (symbols.getD i "")) := by
  intro symbols
  induction symbols with
  | nil => intro results i _ hi; simp at hi
  | cons a symbols ih =>
    intro results i hr hi
    cases results with
    | nil => simp at hr
    | cons o results =>
      cases i with
      | zero =>
        rw [List.get?_cons_zero, Option.some_inj] at hr
        rw [fillNoOrder, List.zipWith_cons_cons, List.get?_cons_zero, hr]
        rfl
      | succ i =>
        rw [List.get?_cons_succ] at hr
        rw [fillNoOrder, List.zipWith_cons_cons, List.get?_cons_succ]
        exact ih results i hr (by simpa using hi)

/-- Placement core shared by both fill loops: a loop writing the `j`-th
value at the looked-up first index of the `j`-th unique key stores, at a
recorded index `(kf x, i)`, exactly the value of `x` at its rank. -/
lemma setMany_rank_get? {α γ : Type} (g : ℕ → γ → α) (kf : γ → String)
    (fi : List (String × ℕ)) (u : List γ)
    (hal : u.map kf = fi.map Prod.fst)
    (hpair : List.Pairwise (fun a b => a.2 < b.2) fi)
    (hnd : (fi.map Prod.fst).Nodup)
    (l : List α) (x : γ) (i j : ℕ)
    (hj : u.get? j = some x) (hmem : (kf x, i) ∈ fi) (hi : i < l.length) :
    (setMany (u.enum.map (fun p => ((fi.lookup (kf p.2)).getD 0, g p.1 p.2))) l).get? i
      = some (g j x) := by
  have hfst : (u.enum.map (fun p => ((fi.lookup (kf p.2)).getD 0, g p.1 p.2))).map Prod.fst
      = fi.map Prod.snd := by
    rw [List.map_map]
    have h1 : (Prod.fst ∘ fun p : ℕ × γ => ((fi.lookup (kf p.2)).getD 0, g p.1 p.2))
        = ((fun s => (fi.lookup s).getD 0) ∘ kf) ∘ Prod.snd := rfl
    rw [h1, ← List.map_map, List.enum_map_snd, ← List.map_map, hal]
    exact lookup_map_getD fi hnd
  have hnodup : ((u.enum.map (fun p => ((fi.lookup (kf p.2)).getD 0, g p.1 p.2))).map
      Prod.fst).Nodup := by
    rw [hfst]
    exact List.pairwise_map.mpr (hpair.imp (fun h => Nat.ne_of_lt h))
  have hk : (u.enum.map (fun p => ((fi.lookup (kf p.2)).getD 0, g p.1 p.2))).get? j
      = some (i, g j x) := by
    rw [List.get?_map, List.get?_enum, hj]
    have hl : fi.lookup (kf x) = some i := lookup_eq_of_mem fi (kf x) i hnd hmem
    simp [hl]
  exact setMany_get? _ l j i (g j x) hnodup hk hi

lemma submitPlaced_length (mode : String) (frozen : Bool) (subscribed : List String)
    (cache : List (String × Bar)) (outs : List OrderResult)
    (symbols sides : List String) (now : ℕ) :
    (submitPlaced mode frozen subscribed cache outs symbols sides now).length
      = (symbols.zip sides).length := by
  by_cases h : mode = "local"
  · have he : submitPlaced mode frozen subscribed cache outs symbols sides now
        = setMany (localWrites cache now
            (submitPrep mode frozen subscribed symbols sides).firstIdx
            (submitPrep mode frozen subscribed symbols sides).uniq)
          (submitPrep mode frozen subscribed symbols sides).skeleton := by
      simp [submitPlaced, h]
    rw [he, setMany_length]
    exact (firstPass_wf _ _ 0 []).1
  · have he : submitPlaced mode frozen subscribed cache outs symbols sides now
        = setMany (paperWrites outs
            (submitPrep mode frozen subscribed symbols sides).firstIdx
            ((submitPrep mode frozen subscribed symbols sides).uniq.map Prod.fst))
          (submitPrep mode frozen subscribed symbols sides).skeleton := by
      simp [submitPlaced, h]
    rw [he, setMany_length]
    exact (firstPass_wf _ _ 0 []).1

lemma submitPlaced_local_get? (frozen : Bool) (subscribed : List String)
    (cache : List (String × Bar)) (outs : List OrderResult)
    (symbols sides : List String) (now : ℕ) (sym side : String) (i j : ℕ)
    (hj : (submitPrep "local" frozen subscribed symbols sides).uniq.get? j
      = some (sym, side))
    (hmem : (sym, i) ∈ (submitPrep "local" frozen subscribed symbols sides).firstIdx)
    (hi : i < (symbols.zip sides).length) :
    (submitPlaced "local" frozen subscribed cache outs symbols sides now).get? i
      = some (some (localOrder cache now j sym side)) := by
  obtain ⟨hsk, hal, hbnd, hpair, hnd⟩ :=
    firstPass_wf (autoSubscribed "local" frozen subscribed symbols) (symbols.zip sides) 0 []
  have hsk2 : (submitPrep "local" frozen subscribed symbols sides).skeleton.length
      = (symbols.zip sides).length := hsk
  have he : submitPlaced "local" frozen subscribed cache outs symbols sides now
      = setMany (localWrites cache now
          (submitPrep "local" frozen subscribed symbols sides).firstIdx
          (submitPrep "local" frozen subscribed symbols sides).uniq)
        (submitPrep "local" frozen subscribed symbols sides).skeleton := by
    simp [submitPlaced]
  rw [he, localWrites]
  exact setMany_rank_get? (fun k q => some (localOrder cache now k q.1 q.2)) Prod.fst
    (submitPrep "local" frozen subscribed symbols sides).firstIdx
    (submitPrep "local" frozen subscribed symbols sides).uniq
    hal hpair hnd
    (submitPrep "local" frozen subscribed symbols sides).skeleton
    (sym, side) i j hj hmem (by rw [hsk2]; exact hi)

lemma paperPlaced_symbol (sym : String) (res : OrderResult) :
    (paperPlaced sym res).symbol = sym := by
  unfold paperPlaced
  split <;> rfl

lemma submitPlaced_paper_get? (mode : String) (hmode : ¬ mode = "local") (frozen : Bool)
    (subscribed : List String) (cache : List (String × Bar)) (outs : List OrderResult)
    (symbols sides : List String) (now : ℕ) (sym : String) (i j : ℕ)
    (hj : ((submitPrep mode frozen subscribed symbols sides).uniq.map Prod.fst).get? j
      = some sym)
    (hmem : (sym, i) ∈ (submitPrep mode frozen subscribed symbols sides).firstIdx)
    (hi : i < (symbols.zip sides).length) :
    (submitPlaced mode frozen subscribed cache outs symbols sides now).get? i
      = some (some (paperPlaced sym ((outs.get? j).getD {}))) := by
  obtain ⟨hsk, hal, hbnd, hpair, hnd⟩ :=
    firstPass_wf (autoSubscribed mode frozen subscribed symbols) (symbols.zip sides) 0 []
  have hsk2 : (submitPrep mode frozen subscribed symbols sides).skeleton.length
      = (symbols.zip sides).length := hsk
  have he : submitPlaced mode frozen subscribed cache outs symbols sides now
      = setMany (paperWrites outs
          (submitPrep mode frozen subscribed symbols sides).firstIdx
          ((submitPrep mode frozen subscribed symbols sides).uniq.map Prod.fst))
        (submitPrep mode frozen subscribed symbols sides).skeleton := by
    simp [submitPlaced, hmode]
  rw [he, paperWrites]
  refine setMany_rank_get? (fun k s => some (paperPlaced s ((outs.get? k).getD {}))) id
    (submitPrep mode frozen subscribed symbols sides).firstIdx
    ((submitPrep mode frozen subscribed symbols sides).uniq.map Prod.fst)
    ?_ hpair hnd
    (submitPrep mode frozen subscribed symbols sides).skeleton
    sym i j hj hmem (by rw [hsk2]; exact hi)
  rw [List.map_id]
  exact hal

/-- C4: `submit_orders` with equal-length inputs returns one result dict
per lane (never `None`): the output has length N, every lane whose slot
was never populated by a fill loop holds the `no_order` skip dict, each
unique symbol's recorded `first_idx` is the first lane index at which
that symbol occurs in the call, and the produced order result is placed
at exactly that lane (with its `symbol` field set). -/
theorem submitOrders_shape (mode : String) (frozen : Bool) (subscribed : List String)
    (cache : List (String × Bar)) (ordersCache : List (String × OrderResult))
    (outs : List OrderResult) (symbols sides : List String) (now : ℕ)
    (hlen : sides.length = symbols.length) :
    (submitOrders mode frozen subscribed cache ordersCache outs symbols sides now).1.length
      = symbols.length ∧
    (∀ i, i < symbols.length →
      (submitPlaced mode frozen subscribed cache outs symbols sides now).get? i
        = some none →
      (submitOrders mode frozen subscribed cache ordersCache outs symbols sides now).1.get? i
        = some (noOrderResult (symbols.getD i ""))) ∧
    (∀ sym, sym ∈ (submitPrep mode frozen subscribed symbols sides).uniq.map Prod.fst →
      (submitPrep mode frozen subscribed symbols sides).firstIdx.lookup sym
        = symbols.findIdx? (fun x => x == sym)) ∧
    (∀ sym i, (sym, i) ∈ (submitPrep mode frozen subscribed symbols sides).firstIdx →
      ∃ r, (submitPlaced mode frozen subscribed cache outs symbols sides now).get? i
          = some (some r) ∧
        (submitOrders mode frozen subscribed cache ordersCache outs symbols sides now).1.get? i
          = some r ∧ r.symbol = sym) := by
  have hzip : (symbols.zip sides).length = symbols.length := by
    rw [List.length_zip, hlen, Nat.min_self]
  obtain ⟨hsk, hal, hbnd, hpair, hnd⟩ :=
    firstPass_wf (autoSubscribed mode frozen subscribed symbols) (symbols.zip sides) 0 []
  have hplen : (submitPlaced mode frozen subscribed cache outs symbols sides now).length
      = symbols.length := by
    rw [submitPlaced_length, hzip]
  refine ⟨?_, ?_, ?_, ?_⟩
  · show (fillNoOrder symbols _).length = _
    rw [fillNoOrder, List.length_zipWith, hplen, Nat.min_self]
  · intro i hi hnone
    exact fillNoOrder_get?_none symbols _ i hnone hi
  · intro sym hmemu
    have h0 := firstPass_lookup (autoSubscribed mode frozen subscribed symbols)
      (symbols.zip sides) 0 [] sym (by simp) hmemu
    show (firstPass (autoSubscribed mode frozen subscribed symbols)
      (symbols.zip sides) 0 []).firstIdx.lookup sym = _
    rw [h0]
    exact findIdx?_zip_fst sym symbols sides 0 hlen
  · intro sym i hmem
    obtain ⟨j, hj⟩ := List.get?_of_mem hmem
    have hj2 : (firstPass (autoSubscribed mode frozen subscribed symbols)
        (symbols.zip sides) 0 []).firstIdx.get? j = some (sym, i) := hj
    have hi : i < (symbols.zip sides).length := by
      have := (hbnd (sym, i) hmem).2.1
      simpa using this
    have hisym : i < symbols.length := by rw [← hzip]; exact hi
    have hmap : ((submitPrep mode frozen subscribed symbols sides).uniq.map Prod.fst).get? j
        = some sym := by
      show ((firstPass (autoSubscribed mode frozen subscribed symbols)
        (symbols.zip sides) 0 []).uniq.map Prod.fst).get? j = some sym
      rw [hal, List.get?_map, hj2]
      rfl
    by_cases hm : mode = "local"
    · subst hm
      have hmap0 : ((submitPrep "local" frozen subscribed symbols sides).uniq.get? j).map
          Prod.fst = some sym := by
        rw [← List.get?_map]
        exact hmap
      obtain ⟨q, hq, hq1⟩ := Option.map_eq_some'.mp hmap0
      obtain ⟨qs, qside⟩ := q
      rw [show (qs, qside).1 = qs from rfl] at hq1
      subst hq1
      have hpl := submitPlaced_local_get? frozen subscribed cache outs symbols sides now
        qs qside i j hq hmem hi
      exact ⟨localOrder cache now j qs qside, hpl,
        fillNoOrder_get?_some symbols _ i _ hpl hisym, rfl⟩
    · have hpl := submitPlaced_paper_get? mode hm frozen subscribed cache outs symbols
        sides now sym i j hmap hmem hi
      exact ⟨paperPlaced sym ((outs.get? j).getD {}), hpl,
        fillNoOrder_get?_some symbols _ i _ hpl hisym, paperPlaced_symbol sym _⟩

theorem submitOrders_shape_witness :
    (["buy", "sell"] : List String).length = (["A", "A"] : List String).length ∧
    (submitOrders "local" false ["A"] [] [] [] ["A", "A"] ["buy", "sell"] 5).1.length
      = (["A", "A"] : List String).length :=
  ⟨rfl, (submitOrders_shape "local" false ["A"] [] [] [] ["A", "A"] ["buy", "sell"] 5 rfl).1⟩

/-- C3 (amended): in local mode the `j`-th unique subscribed symbol
yields the result dict `{order_id: "local-{sym}-{μs + j}"` (microsecond
timestamp plus the symbol's rank among the unique symbols), `symbol`,
`status: "filled"`, `filled_avg_price:` last cached close or 0,
`action:` side mapped through `{hold:0, buy:1, sell:2}}`, placed at lane
`first_idx[sym]`, the first lane index at which the symbol occurs; the
orders cache is left unchanged (no result is stored in it). -/
theorem submitOrders_local_result (frozen : Bool) (subscribed : List String)
    (cache : List (String × Bar)) (ordersCache : List (String × OrderResult))
    (outs : List OrderResult) (symbols sides : List String) (now : ℕ)
    (sym side : String) (i j : ℕ)
    (hlen : sides.length = symbols.length)
    (hj : (submitPrep "local" frozen subscribed symbols sides).uniq.get? j
      = some (sym, side))
    (hmem : (sym, i) ∈ (submitPrep "local" frozen subscribed symbols sides).firstIdx) :
    (submitPrep "local" frozen subscribed symbols sides).firstIdx.lookup sym
      = symbols.findIdx? (fun x => x == sym) ∧
    (submitOrders "local" frozen subscribed cache ordersCache outs symbols sides now).1.get? i
      = some { order_id := some ("local-" ++ sym ++ "-" ++ toString (now + j)),
               symbol := sym,
               status := some "filled",
               filled_avg_price := some (lastClose cache sym),
               action := some (sideToAction side) } ∧
    (submitOrders "local" frozen subscribed cache ordersCache outs symbols sides now).2
      = ordersCache := by
  have hzip : (symbols.zip sides).length = symbols.length := by
    rw [List.length_zip, hlen, Nat.min_self]
  obtain ⟨hsk, hal, hbnd, hpair, hnd⟩ :=
    firstPass_wf (autoSubscribed "local" frozen subscribed symbols) (symbols.zip sides) 0 []
  have hi : i < (symbols.zip sides).length := by
    have := (hbnd (sym, i) hmem).2.1
    simpa using this
  have hisym : i < symbols.length := by rw [← hzip]; exact hi
  refine ⟨?_, ?_, rfl⟩
  · have hmemu : sym ∈ (submitPrep "local" frozen subscribed symbols sides).uniq.map
        Prod.fst := by
      refine List.mem_map.mpr ⟨(sym, side), ?_, rfl⟩
      exact List.get?_mem hj
    have h0 := firstPass_lookup (autoSubscribed "local" frozen subscribed symbols)
      (symbols.zip sides) 0 [] sym (by simp) hmemu
    show (firstPass (autoSubscribed "local" frozen subscribed symbols)
      (symbols.zip sides) 0 []).firstIdx.lookup sym = _
    rw [h0]
    exact findIdx?_zip_fst sym symbols sides 0 hlen
  · have hpl := submitPlaced_local_get? frozen subscribed cache outs symbols sides now
      sym side i j hj hmem hi
    exact fillNoOrder_get?_some symbols _ i _ hpl hisym

/-- Market cache with a single cached bar for symbol `A` (close 10). -/
def cacheAB : List (String × Bar) := [("A", ⟨1, 2, 1, 10, 5, 0⟩)]

theorem submitOrders_local_result_witness :
    (["buy", "sell"] : List String).length = (["A", "B"] : List String).length ∧
    (submitPrep "local" false ["A", "B"] ["A", "B"] ["buy", "sell"]).uniq.get? 1
      = some ("B", "sell") ∧
    ("B", 1) ∈ (submitPrep "local" false ["A", "B"] ["A", "B"] ["buy", "sell"]).firstIdx ∧
    (submitOrders "local" false ["A", "B"] cacheAB [] [] ["A", "B"] ["buy", "sell"] 17).2
      = [] :=
  ⟨rfl, by decide, by decide,
   (submitOrders_local_result false ["A", "B"] cacheAB [] [] ["A", "B"] ["buy", "sell"] 17
     "B" "sell" 1 1 rfl (by decide) (by decide)).2.2⟩

/-- C3 counterexample: calling local `submit_orders` on lanes `[A, B]`
(both subscribed) with microsecond timestamp 17 produces a filled result
at lane 0, yet the orders cache stays empty — the result is not stored
in `orders_cache` — and the second unique symbol's order id is
`local-B-18` (timestamp plus rank 1), not `local-B-17` as the claimed
`local-{sym}-{microseconds}` format requires. -/
theorem submitOrders_local_counterexample :
    (submitOrders "local" false ["A", "B"] cacheAB [] [] ["A", "B"] ["buy", "sell"] 17).2
      = [] ∧
    ((submitOrders "local" false ["A", "B"] cacheAB [] [] ["A", "B"] ["buy", "sell"]
        17).1.getD 0 {}).status = some "filled" ∧
    ((submitOrders "local" false ["A", "B"] cacheAB [] [] ["A", "B"] ["buy", "sell"]
        17).1.getD 1 {}).order_id = some "local-B-18" ∧
    ¬ ((submitOrders "local" false ["A", "B"] cacheAB [] [] ["A", "B"] ["buy", "sell"]
        17).1.getD 1 {}).order_id = some "local-B-17" := by
  decide

/-! ### Paper/real reward plumbing (`TradingMarket.step_account`, lines 856-917) -/

/-- Per-lane symbol reconstruction (lines 862-869) when no explicit
`symbols` argument is passed: the order result's `symbol` (missing keys
read as the empty string), else the `init_symbols` entry at the same
position, else the empty string. -/
def buildSyms (initSymbols : List String) (orderResults : List OrderResult) : List String :=
  orderResults.enum.map (fun p =>
    if p.2.symbol ≠ "" then p.2.symbol else initSymbols.getD p.1 "")

/-- The lane symbols used by paper/real `step_account` (lines 859-869). -/
def paperSyms (initSymbols : List String) (symbolsOpt : Option (List String))
    (orderResults : List OrderResult) : List String :=
  match symbolsOpt with
  | some l => l
  | none => buildSyms initSymbols orderResults

/-- Active-lane selection (lines 876-886): skip empty-symbol,
unsubscribed, skipped and duplicate lanes; record the first lane index
per surviving symbol.  `active_syms` is appended in lock-step with the
`first_idx` insertions in the source, so it equals the key list of the
returned map. -/
def activePass (subscribed : List String) :
    List (String × OrderResult) → ℕ → List String → List (String × ℕ)
  | [], _, _ => []
  | (sym, r) :: rest, i, seen =>
    if sym = "" ∨ sym ∉ subscribed then activePass subscribed rest (i + 1) seen
    else if r.skipped then activePass subscribed rest (i + 1) seen
    else if sym ∈ seen then activePass subscribed rest (i + 1) seen
    else (sym, i) :: activePass subscribed rest (i + 1) (sym :: seen)

/-- First-index map over the zipped lanes, as built by `step_account`. -/
def paperFirstIdx (subscribed syms : List String) (orderResults : List OrderResult) :
    List (String × ℕ) :=
  activePass subscribed (syms.zip orderResults) 0 []

structure PaperStepOut where
  reward : List ℚ
  truncated : List Bool
  terminated : List Bool
  navPrev : List (String × ℚ)

/-- `nav = cash_share + qty_map.get(s, 0.0) * prices.get(s, 0.0)`
(line 909), with the price dict built from the market cache. -/
def navOf (cashShare : ℚ) (qtyMap : List (String × ℚ)) (cache : List (String × Bar))
    (sym : String) : ℚ :=
  cashShare + (qtyMap.lookup sym).getD 0 * lastClose cache sym

/-- `TradingMarket.step_account` (lines 856-917) for paper/real modes.
`cashTotal` is the `/account` cash, `qtyMap` the positions by symbol and
`prevMap` the stored `_nav_prev_by_sym` dict; `navPrev` is what the call
stores back (unchanged on the no-active-lane early return).  `reward`,
`truncated` and `terminated` are allocated as zeros of the lane length
and only `reward` is ever written. -/
def stepAccountPaper (subscribed initSymbols : List String)
    (symbolsOpt : Option (List String)) (orderResults : List OrderResult)
    (cashTotal : ℚ) (qtyMap : List (String × ℚ)) (cache : List (String × Bar))
    (prevMap : List (String × ℚ)) : PaperStepOut :=
  let syms := paperSyms initSymbols symbolsOpt orderResults
  let n := syms.length
  let firstIdx := paperFirstIdx subscribed syms orderResults
  let active := firstIdx.map Prod.fst
  if active = [] then
    ⟨List.replicate n 0, List.replicate n false, List.replicate n false, prevMap⟩
  else
    let cashShare := cashTotal / (active.length : ℚ)
    ⟨setMany (active.map (fun s => ((firstIdx.lookup s).getD 0,
        navOf cashShare qtyMap cache s - (prevMap.lookup s).getD 0)))
      (List.replicate n 0),
     List.replicate n false, List.replicate n false,
     active.map (fun s => (s, navOf cashShare qtyMap cache s))⟩

/-- Structural invariants of the active-lane selection: recorded indices
lie in `[i0, i0 + number of lanes)` with symbols outside `seen`, they
are strictly increasing, and the symbols are pairwise distinct. -/
lemma activePass_wf (subscribed : List String) :
    ∀ (lanes : List (String × OrderResult)) (i0 : ℕ) (seen : List String),
      (∀ e ∈ activePass subscribed lanes i0 seen,
        i0 ≤ e.2 ∧ e.2 < i0 + lanes.length ∧ e.1 ∉ seen) ∧
      List.Pairwise (fun a b => a.2 < b.2) (activePass subscribed lanes i0 seen) ∧
      ((activePass subscribed lanes i0 seen).map Prod.fst).Nodup := by
  intro lanes
  induction lanes with
  | nil => intro i0 seen; simp [activePass]
  | cons p rest ih =>
    intro i0 seen
    obtain ⟨sym, r⟩ := p
    by_cases c1 : sym = "" ∨ sym ∉ subscribed
    · obtain ⟨l1, l2, l3⟩ := ih (i0 + 1) seen
      rw [show activePass subscribed ((sym, r) :: rest) i0 seen
          = activePass subscribed rest (i0 + 1) seen from by
        rw [activePass, if_pos c1]]
      refine ⟨?_, l2, l3⟩
      intro e he
      obtain ⟨b1, b2, b3⟩ := l1 e he
      exact ⟨by omega, by simpa [Nat.add_comm, Nat.add_left_comm] using b2, b3⟩
    · by_cases c2 : r.skipped
      · obtain ⟨l1, l2, l3⟩ := ih (i0 + 1) seen
        rw [show activePass subscribed ((sym, r) :: rest) i0 seen
            = activePass subscribed rest (i0 + 1) seen from by
          rw [activePass, if_neg c1, if_pos c2]]
        refine ⟨?_, l2, l3⟩
        intro e he
        obtain ⟨b1, b2, b3⟩ := l1 e he
        exact ⟨by omega, by simpa [Nat.add_comm, Nat.add_left_comm] using b2, b3⟩
      · by_cases c3 : sym ∈ seen
        · obtain ⟨l1, l2, l3⟩ := ih (i0 + 1) seen
          rw [show activePass subscribed ((sym, r) :: rest) i0 seen
              = activePass subscribed rest (i0 + 1) seen from by
            rw [activePass, if_neg c1, if_neg (by simpa using c2), if_pos c3]]
          refine ⟨?_, l2, l3⟩
          intro e he
          obtain ⟨b1, b2, b3⟩ := l1 e he
          exact ⟨by omega, by simpa [Nat.add_comm, Nat.add_left_comm] using b2, b3⟩
        · obtain ⟨l1, l2, l3⟩ := ih (i0 + 1) (sym :: seen)
          rw [show activePass subscribed ((sym, r) :: rest) i0 seen
              = (sym, i0) :: activePass subscribed rest (i0 + 1) (sym :: seen) from by
            rw [activePass, if_neg c1, if_neg (by simpa using c2), if_neg c3]]
          refine ⟨?_, ?_, ?_⟩
          · intro e he
            rcases List.mem_cons.mp he with he | he
            · rw [he]
              exact ⟨le_refl _, by simp, c3⟩
            · obtain ⟨b1, b2, b3⟩ := l1 e he
              refine ⟨by omega, by simpa [Nat.add_comm, Nat.add_left_comm] using b2, ?_⟩
              intro hs
              exact b3 (List.mem_cons_of_mem _ hs)
          · refine List.pairwise_cons.mpr ⟨?_, l2⟩
            intro e he
            have := (l1 e he).1
            show i0 < e.2
            omega
          · rw [List.map_cons]
            refine List.nodup_cons.mpr ⟨?_, l3⟩
            intro hs
            rcases List.mem_map.mp hs with ⟨e, he, hfe⟩
            exact (l1 e he).2.2 (by rw [hfe]; exact List.mem_cons_self _ _)

lemma map_eq_enum_map {α γ : Type} (f : γ → α) (u : List γ) :
    u.map f = u.enum.map (fun p => f p.2) := by
  calc u.map f = (u.enum.map Prod.snd).map f := by rw [List.enum_map_snd]
    _ = u.enum.map (fun p => f p.2) := List.map_map f Prod.snd u.enum

/-- C9: the paper/real `step_account` path returns `truncated` and
`terminated` as all-false arrays of the lane length for every input —
no lane is ever terminated or truncated in non-local modes — and the
reward array has that same lane length. -/
theorem stepAccountPaper_flags_all_false (subscribed initSymbols : List String)
    (symbolsOpt : Option (List String)) (orderResults : List OrderResult)
    (cashTotal : ℚ) (qtyMap : List (String × ℚ)) (cache : List (String × Bar))
    (prevMap : List (String × ℚ)) :
    (stepAccountPaper subscribed initSymbols symbolsOpt orderResults cashTotal qtyMap
        cache prevMap).truncated
      = List.replicate (paperSyms initSymbols symbolsOpt orderResults).length false ∧
    (stepAccountPaper subscribed initSymbols symbolsOpt orderResults cashTotal qtyMap
        cache prevMap).terminated
      = List.replicate (paperSyms initSymbols symbolsOpt orderResults).length false ∧
    (stepAccountPaper subscribed initSymbols symbolsOpt orderResults cashTotal qtyMap
        cache prevMap).reward.length
      = (paperSyms initSymbols symbolsOpt orderResults).length := by
  by_cases h : (paperFirstIdx subscribed (paperSyms initSymbols symbolsOpt orderResults)
      orderResults).map Prod.fst = []
  · simp only [stepAccountPaper]
    rw [if_pos h]
    exact ⟨rfl, rfl, by rw [List.length_replicate]⟩
  · simp only [stepAccountPaper]
    rw [if_neg h]
    exact ⟨rfl, rfl, by rw [setMany_length, List.length_replicate]⟩

/-- C8: in paper/real `step_account`, for every active symbol (non-empty,
subscribed, not skipped, at its first lane index), the reward at that
lane is the symbol's NAV minus the previous NAV read from the stored
`_nav_prev_by_sym` map with default 0; hence with no stored entry the
reward equals the symbol's current NAV, not zero. -/
theorem stepAccountPaper_reward (subscribed initSymbols : List String)
    (symbolsOpt : Option (List String)) (orderResults : List OrderResult)
    (cashTotal : ℚ) (qtyMap : List (String × ℚ)) (cache : List (String × Bar))
    (prevMap : List (String × ℚ)) (sym : String) (i : ℕ)
    (hmem : (sym, i) ∈ paperFirstIdx subscribed
      (paperSyms initSymbols symbolsOpt orderResults) orderResults) :
    ((stepAccountPaper subscribed initSymbols symbolsOpt orderResults cashTotal qtyMap
        cache prevMap).reward.get? i
      = some (navOf (cashTotal / (((paperFirstIdx subscribed
            (paperSyms initSymbols symbolsOpt orderResults) orderResults).map
            Prod.fst).length : ℚ)) qtyMap cache sym
          - (prevMap.lookup sym).getD 0)) ∧
    (prevMap.lookup sym = none →
      (stepAccountPaper subscribed initSymbols symbolsOpt orderResults cashTotal qtyMap
          cache prevMap).reward.get? i
        = some (navOf (cashTotal / (((paperFirstIdx subscribed
              (paperSyms initSymbols symbolsOpt orderResults) orderResults).map
              Prod.fst).length : ℚ)) qtyMap cache sym)) := by
  obtain ⟨hbnd, hpair, hnd⟩ := activePass_wf subscribed
    ((paperSyms initSymbols symbolsOpt orderResults).zip orderResults) 0 []
  have hbnd2 : ∀ e ∈ paperFirstIdx subscribed
      (paperSyms initSymbols symbolsOpt orderResults) orderResults,
      0 ≤ e.2 ∧ e.2 < 0 + ((paperSyms initSymbols symbolsOpt orderResults).zip
        orderResults).length ∧ e.1 ∉ ([] : List String) := hbnd
  have hpair2 : List.Pairwise (fun a b => a.2 < b.2) (paperFirstIdx subscribed
      (paperSyms initSymbols symbolsOpt orderResults) orderResults) := hpair
  have hnd2 : ((paperFirstIdx subscribed (paperSyms initSymbols symbolsOpt orderResults)
      orderResults).map Prod.fst).Nodup := hnd
  have hne : (paperFirstIdx subscribed (paperSyms initSymbols symbolsOpt orderResults)
      orderResults).map Prod.fst ≠ [] :=
    List.ne_nil_of_mem (List.mem_map_of_mem Prod.fst hmem)
  obtain ⟨j, hj⟩ := List.get?_of_mem hmem
  have hj2 : ((paperFirstIdx subscribed (paperSyms initSymbols symbolsOpt orderResults)
      orderResults).map Prod.fst).get? j = some sym := by
    rw [List.get?_map, hj]
    rfl
  have hi : i < (List.replicate (paperSyms initSymbols symbolsOpt orderResults).length
      (0 : ℚ)).length := by
    rw [List.length_replicate]
    have h1 : i < ((paperSyms initSymbols symbolsOpt orderResults).zip
        orderResults).length := by
      simpa using (hbnd2 (sym, i) hmem).2.1
    refine lt_of_lt_of_le h1 ?_
    rw [List.length_zip]
    exact Nat.min_le_left _ _
  have h1 : (stepAccountPaper subscribed initSymbols symbolsOpt orderResults cashTotal
      qtyMap cache prevMap).reward.get? i
      = some (navOf (cashTotal / (((paperFirstIdx subscribed
          (paperSyms initSymbols symbolsOpt orderResults) orderResults).map
          Prod.fst).length : ℚ)) qtyMap cache sym
        - (prevMap.lookup sym).getD 0) := by
    have hunfold : (stepAccountPaper subscribed initSymbols symbolsOpt orderResults
        cashTotal qtyMap cache prevMap).reward
        = setMany (((paperFirstIdx subscribed (paperSyms initSymbols symbolsOpt
              orderResults) orderResults).map Prod.fst).map
            (fun s => (((paperFirstIdx subscribed (paperSyms initSymbols symbolsOpt
                orderResults) orderResults).lookup s).getD 0,
              navOf (cashTotal / (((paperFirstIdx subscribed (paperSyms initSymbols
                  symbolsOpt orderResults) orderResults).map Prod.fst).length : ℚ))
                qtyMap cache s - (prevMap.lookup s).getD 0)))
          (List.replicate (paperSyms initSymbols symbolsOpt orderResults).length 0) := by
      simp only [stepAccountPaper]
      rw [if_neg hne]
    rw [hunfold, map_eq_enum_map]
    exact setMany_rank_get?
      (fun k s => navOf (cashTotal / (((paperFirstIdx subscribed (paperSyms initSymbols
          symbolsOpt orderResults) orderResults).map Prod.fst).length : ℚ))
        qtyMap cache s - (prevMap.lookup s).getD 0)
      id
      (paperFirstIdx subscribed (paperSyms initSymbols symbolsOpt orderResults)
        orderResults)
      ((paperFirstIdx subscribed (paperSyms initSymbols symbolsOpt orderResults)
        orderResults).map Prod.fst)
      (by rw [List.map_id]) hpair2 hnd2 _ sym i j hj2 hmem hi
  refine ⟨h1, fun h => ?_⟩
  rw [h1, h]
  simp

/-- Market cache with a single cached bar for symbol `A` (close 3). -/
def cacheA3 : List (String × Bar) := [("A", ⟨0, 0, 0, 3, 0, 0⟩)]

theorem stepAccountPaper_reward_witness :
    ("A", 0) ∈ paperFirstIdx ["A"] (paperSyms [] (some ["A"]) [{}]) [{}] ∧
    (stepAccountPaper ["A"] [] (some ["A"]) [{}] 10 [("A", 2)] cacheA3 []).reward.get? 0
      = some (navOf (10 / (((paperFirstIdx ["A"] (paperSyms [] (some ["A"]) [{}])
            [{}]).map Prod.fst).length : ℚ)) [("A", 2)] cacheA3 "A"
          - ((([] : List (String × ℚ)).lookup "A").getD 0)) :=
  ⟨by decide,
   (stepAccountPaper_reward ["A"] [] (some ["A"]) [{}] 10 [("A", 2)] cacheA3 [] "A" 0
     (by decide)).1⟩

end RemoteRL
